import Mathlib

/-!
# simpleMC: sliding-window sums of uniform variates filled into histograms

A shallow embedding of `simpleMC.cc`.  Doubles are modelled by exact rationals,
the C array `n` by a list whose out-of-range accesses are errors (`none`), and
the calls that `main` makes on the histogram and file objects are recorded, in
program order, in a trace.  The histogram class itself belongs to an external
library; its behaviour is modelled separately, from the specification.
-/

namespace SimpleMC

/-! ## Program model (from `simpleMC.cc`) -/

/-- The five histograms booked by `main` (lines 18-24). -/
inductive HistId where
  | h_Uni
  | h_Exp
  | h_1
  | h_2
  | h_3
  deriving DecidableEq, Repr

/-- Observable actions of `main`, in program order. -/
inductive Event where
  /-- The call `new TFile("simpleMC.root", "recreate")`, with whether the file could be opened. -/
  | fileOpen (ok : Bool)
  /-- A load of `n[k]`. -/
  | read (k : Nat)
  /-- A store to `n[k]`. -/
  | store (k : Nat)
  /-- The call `h->Fill(v)`. -/
  | fill (h : HistId) (v : ℚ)
  /-- The call `file->Write()`, with whether the data could be written. -/
  | fileWrite (ok : Bool)
  /-- The call `file->Close()`. -/
  | fileClose
  deriving DecidableEq, Repr

/-- What `main` receives from outside: the stream of the seeded generator, the
library logarithm, the uninitialised contents of the array `n`, and the
outcome of the file operations. -/
structure Env where
  /-- The value returned by the `k`-th call of `ran->Rndm()` (calls counted from 0). -/
  ran : Nat → ℚ
  /-- The library function `log`. -/
  log : ℚ → ℚ
  /-- The contents of the cells of `n` before they are assigned. -/
  stack : Nat → ℚ
  /-- Whether opening the output file succeeds. -/
  openOk : Bool
  /-- Whether writing the output file succeeds. -/
  writeOk : Bool

/-- Mutable state of `main`: the array `n`, the number of calls made on the
generator, and the trace of actions so far. -/
structure State where
  n : List ℚ
  calls : Nat
  trace : List Event

/-- Run `body 0`, ..., `body (k-1)` in sequence, stopping at the first error. -/
def iter {σ : Type} (k : Nat) (body : Nat → σ → Option σ) (s : σ) : Option σ :=
  (List.range k).foldlM (fun st i => body i st) s

/-- The loop `for (int i = 0; i < bound; ++i) body`, with `bound` a C `int`. -/
def forLoop {σ : Type} (bound : Int) (body : Nat → σ → Option σ) (s : σ) : Option σ :=
  iter bound.toNat body s

/-- The constant `const int numValues = 10000;` (line 31). -/
def numValues : Nat := 10000

/-- The constant `const double xi = 1.0;` (line 32). -/
def xi : ℚ := 1

/-- Body of the generation loop (lines 36-40). -/
def genBody (env : Env) (i : Nat) (s : State) : Option State :=
  let r := env.ran s.calls
  let x := - xi * env.log r
  if i < s.n.length then
    some { n := s.n.set i r, calls := s.calls + 1,
           trace := s.trace ++ [Event.fill HistId.h_Uni r, Event.fill HistId.h_Exp x, Event.store i] }
  else none

/-- The expression `n[i] + n[i+1] - 1` (line 44). -/
def x1 (a b : ℚ) : ℚ := a + b - 1

/-- Body of the sum-of-2 loop (lines 44-45). -/
def sum2Body (i : Nat) (s : State) : Option State :=
  match s.n[i]?, s.n[i+1]? with
  | some a, some b =>
    some { s with trace := s.trace ++
      [Event.read i, Event.read (i+1), Event.fill HistId.h_1 (x1 a b)] }
  | _, _ => none

/-- The expression `n[i] + n[i+1] + n[i+2] + n[i+3] - 2` (line 49). -/
def x2 (a b c d : ℚ) : ℚ := a + b + c + d - 2

/-- Body of the sum-of-4 loop (lines 49-50). -/
def sum4Body (i : Nat) (s : State) : Option State :=
  match s.n[i]?, s.n[i+1]?, s.n[i+2]?, s.n[i+3]? with
  | some a, some b, some c, some d =>
    some { s with trace := s.trace ++
      [Event.read i, Event.read (i+1), Event.read (i+2), Event.read (i+3),
       Event.fill HistId.h_2 (x2 a b c d)] }
  | _, _, _, _ => none

/-- Body of the inner loop `x_3 += n[i+j]` (line 56); the state carries `x_3`. -/
def innerBody (i j : Nat) (p : ℚ × State) : Option (ℚ × State) :=
  match p.2.n[i+j]? with
  | some v => some (p.1 + v, { p.2 with trace := p.2.trace ++ [Event.read (i+j)] })
  | none => none

/-- Body of the sum-of-12 loop (lines 54-58). -/
def sum12Body (i : Nat) (s : State) : Option State :=
  match s.n[i]? with
  | none => none
  | some a =>
    match forLoop 12 (innerBody i) (a, { s with trace := s.trace ++ [Event.read i] }) with
    | none => none
    | some (x_3, s') => some { s' with trace := s'.trace ++ [Event.fill HistId.h_3 (x_3 - 6)] }

/-- The generation loop (lines 35-41) over an array of `N` cells. -/
def genLoop (env : Env) (N : Nat) (s : State) : Option State :=
  forLoop (N : Int) (genBody env) s

/-- The sum-of-2 loop (lines 43-46). -/
def sum2Loop (N : Nat) (s : State) : Option State :=
  forLoop ((N : Int) - 1) sum2Body s

/-- The sum-of-4 loop (lines 48-51). -/
def sum4Loop (N : Nat) (s : State) : Option State :=
  forLoop ((N : Int) - 3) sum4Body s

/-- The sum-of-12 loop (lines 53-59). -/
def sum12Loop (N : Nat) (s : State) : Option State :=
  forLoop ((N : Int) - 11) sum12Body s

/-- The three sliding-window loops in sequence (lines 43-59). -/
def slidingLoops (N : Nat) (s : State) : Option State :=
  (sum2Loop N s).bind fun s2 => (sum4Loop N s2).bind fun s3 => sum12Loop N s3

/-- The body of `main` (lines 12-66) with the constant `numValues` abstracted
to `N`: its exit code and final state, or `none` if an array access goes out of
bounds. -/
def mainFor (N : Nat) (env : Env) : Option (Int × State) :=
  let s0 : State :=
    { n := (List.range N).map env.stack, calls := 0,
      trace := [Event.fileOpen env.openOk] }
  (genLoop env N s0).bind fun s1 =>
  (slidingLoops N s1).bind fun s4 =>
  let s5 : State := { s4 with trace := s4.trace ++ [Event.fileWrite env.writeOk, Event.fileClose] }
  some (0, s5)

/-- The program `main` (lines 12-66). -/
def main (env : Env) : Option (Int × State) := mainFor numValues env

/-- The value passed by a `Fill` on histogram `h`, if the event is one. -/
def Event.fillValue (h : HistId) : Event → Option ℚ
  | Event.fill g v => if g = h then some v else none
  | _ => none

/-- The index loaded, if the event is a load of `n`. -/
def Event.readIndex : Event → Option Nat
  | Event.read k => some k
  | _ => none

/-- The values filled into histogram `h`, in order. -/
def fillsOf (h : HistId) (t : List Event) : List ℚ := t.filterMap (Event.fillValue h)

/-- The indices of `n` that were loaded, in order. -/
def readsOf (t : List Event) : List Nat := t.filterMap Event.readIndex

/-! ## Closed forms of the traces of the loops -/

/-- Events of the first `k` iterations of a loop whose `i`-th iteration emits `f i`. -/
def gather (f : Nat → List Event) : Nat → List Event
  | 0 => []
  | k+1 => gather f k ++ f k

/-- Buffer cell `i`, with `0` outside the buffer. -/
def cell (n : List ℚ) (i : Nat) : ℚ := (n[i]?).getD 0

/-- Events of iteration `i` of the sum-of-2 loop over buffer `n`. -/
def sum2Events (n : List ℚ) (i : Nat) : List Event :=
  [Event.read i, Event.read (i+1), Event.fill HistId.h_1 (x1 (cell n i) (cell n (i+1)))]

/-- Events of iteration `i` of the sum-of-4 loop over buffer `n`. -/
def sum4Events (n : List ℚ) (i : Nat) : List Event :=
  [Event.read i, Event.read (i+1), Event.read (i+2), Event.read (i+3),
   Event.fill HistId.h_2 (x2 (cell n i) (cell n (i+1)) (cell n (i+2)) (cell n (i+3)))]

/-- The sum of the window of `w` cells of `n` starting at `i`. -/
def window (n : List ℚ) (i w : Nat) : ℚ := ∑ j in Finset.range w, cell n (i + j)

/-- Events of iteration `i` of the sum-of-12 loop over buffer `n`. -/
def sum12Events (n : List ℚ) (i : Nat) : List Event :=
  Event.read i :: (gather (fun j => [Event.read (i + j)]) 12 ++
    [Event.fill HistId.h_3 (cell n i + window n i 12 - 6)])

/-- Events of iteration `i` of the generation loop started after `c` generator calls. -/
def genEvents (env : Env) (c i : Nat) : List Event :=
  [Event.fill HistId.h_Uni (env.ran (c + i)),
   Event.fill HistId.h_Exp (- xi * env.log (env.ran (c + i))), Event.store i]

/-- Events of the three sliding-window loops over a buffer `n` of `N` cells. -/
def slidingEvents (n : List ℚ) (N : Nat) : List Event :=
  gather (sum2Events n) (N - 1) ++ (gather (sum4Events n) (N - 3) ++ gather (sum12Events n) (N - 11))

/-- The buffer `n` after the generation loop over `N` cells. -/
def buffer (env : Env) (N : Nat) : List ℚ := (List.range N).map env.ran

/-- The trace of a complete run of `mainFor N`. -/
def traceFor (N : Nat) (env : Env) : List Event :=
  Event.fileOpen env.openOk :: (gather (genEvents env 0) N ++
    (slidingEvents (buffer env N) N ++ [Event.fileWrite env.writeOk, Event.fileClose]))

/-! ## Histogram model -/

/-- Modelled from the spec: the histogram object of the external histogram
library (class `TH1D`, whose code is not among the sources): a name, a title,
`nbins` equal-width bins over `[lo, hi)` with their counts, and the counts of the
values dropped below (`underflow`) and above (`overflow`) the range. -/
structure Histogram where
  name : String
  title : String
  nbins : Nat
  lo : ℚ
  hi : ℚ
  bins : List Nat
  underflow : Nat
  overflow : Nat

/-- Modelled from the spec: `create(name, title, binCount, lo, hi)` initializes
an all-zero bin array (the library constructor `TH1D(...)` is not among the
sources). -/
def Histogram.create (name title : String) (binCount : Nat) (lo hi : ℚ) : Histogram :=
  { name := name, title := title, nbins := binCount, lo := lo, hi := hi,
    bins := List.replicate binCount 0, underflow := 0, overflow := 0 }

/-- Modelled from the spec: the common width of the `nbins` equal-width bins
over `[lo, hi)` (library code not among the sources). -/
def Histogram.binWidth (h : Histogram) : ℚ := (h.hi - h.lo) / h.nbins

/-- Modelled from the spec: the bin `floor((value - lo) / binWidth)` of a value
(library code not among the sources). -/
def Histogram.binOf (h : Histogram) (v : ℚ) : Int := Int.floor ((v - h.lo) / h.binWidth)

/-- Modelled from the spec: incrementing the count of bin `k` in the bin array
(library code not among the sources). -/
def incrAt : List Nat → Nat → List Nat
  | [], _ => []
  | c :: cs, 0 => (c + 1) :: cs
  | c :: cs, k + 1 => c :: incrAt cs k

/-- Modelled from the spec: `fill(value)` increments the count of the bin
`floor((value - lo) / binWidth)` if `lo <= value < hi`; a value outside the
range is dropped into under/overflow and changes no bin (the library method
`TH1D::Fill` is not among the sources). -/
def Histogram.fill (h : Histogram) (v : ℚ) : Histogram :=
  if h.lo ≤ v ∧ v < h.hi then { h with bins := incrAt h.bins (h.binOf v).toNat }
  else if v < h.lo then { h with underflow := h.underflow + 1 }
  else { h with overflow := h.overflow + 1 }

/-- Modelled from the spec: filling a sequence of values in order (repeated
calls of the library method `Fill`, which is not among the sources). -/
def Histogram.fillAll (h : Histogram) (vs : List ℚ) : Histogram := vs.foldl Histogram.fill h

/-- Modelled from the spec: the total of all bin counts of a histogram (the
histogram class is not among the sources). -/
def Histogram.total (h : Histogram) : Nat := h.bins.sum

/-- Modelled from the spec: whether a value lies in the range `[lo, hi)` of a
histogram (the histogram class is not among the sources). -/
def Histogram.inRange (h : Histogram) (v : ℚ) : Bool := decide (h.lo ≤ v ∧ v < h.hi)

/-- The histograms as booked by `main` (lines 18-24). -/
def book : HistId → Histogram
  | HistId.h_Uni => Histogram.create ("h_Uni") ("uniform random numbers") 100 0 1
  | HistId.h_Exp => Histogram.create ("h_Exp") ("exponential random numbers") 100 0 5
  | HistId.h_1 => Histogram.create ("h_1") ("sequence one") 100 0 1
  | HistId.h_2 => Histogram.create ("h_2") ("sequence two") 100 0 5
  | HistId.h_3 => Histogram.create ("h_3") ("sequence three") 100 0 5

/-- The state of histogram `h` after the calls recorded in trace `t`. -/
def histogramOf (h : HistId) (t : List Event) : Histogram := (book h).fillAll (fillsOf h t)

/-- The shape of a histogram: its bin count, the length of its bin array, and
its range. -/
def Histogram.Shaped (h : Histogram) (nb : Nat) (lo hi : ℚ) : Prop :=
  h.nbins = nb ∧ h.bins.length = nb ∧ h.lo = lo ∧ h.hi = hi

/-! ## Concrete inputs -/

/-- An environment whose generator returns 1/2 at every call. -/
def halfEnv : Env :=
  { ran := fun _ => 1 / 2, log := fun _ => 0, stack := fun _ => 0, openOk := true, writeOk := true }

/-- An environment in which the output file can be neither opened nor written. -/
def failEnv : Env :=
  { ran := fun _ => 1 / 2, log := fun _ => 0, stack := fun _ => 0, openOk := false, writeOk := false }

/-- A state whose buffer holds the three values 1/2, 3/4, 1/8: the first pair
sums to at least 1, the second pair to less than 1. -/
def mixedState : State := { n := [1 / 2, 3 / 4, 1 / 8], calls := 0, trace := [] }

/-- A state whose buffer holds 10000 values, all equal to 1/2, with an empty trace. -/
def halfState : State := { n := List.replicate 10000 (1 / 2), calls := 0, trace := [] }

/-! ## Theorems -/

theorem iter_zero {σ : Type} (body : Nat → σ → Option σ) (s : σ) : iter 0 body s = some s := rfl

theorem iter_succ {σ : Type} (k : Nat) (body : Nat → σ → Option σ) (s : σ) :
    iter (k+1) body s = (iter k body s).bind (body k) := by
  simp [iter, List.range_succ, List.foldlM_append]

theorem iter_sum2Body (s : State) (k : Nat) (hk : ∀ i, i < k → i + 1 < s.n.length) :
    iter k sum2Body s = some { s with trace := s.trace ++ gather (sum2Events s.n) k } := by
  induction k with
  | zero => simp [iter_zero, gather]
  | succ k ih =>
    have h1 : k + 1 < s.n.length := hk k (Nat.lt_succ_self k)
    have h0 : k < s.n.length := by omega
    rw [iter_succ, ih (fun i hi => hk i (Nat.lt_succ_of_lt hi))]
    simp [sum2Body, List.getElem?_eq_getElem, h0, h1, cell, gather, sum2Events]

theorem sum2Loop_eq (N : Nat) (s : State) (hN : s.n.length = N) :
    sum2Loop N s = some { s with trace := s.trace ++ gather (sum2Events s.n) (N - 1) } := by
  have e : ((N : Int) - 1).toNat = N - 1 := by omega
  rw [sum2Loop, forLoop, e]
  exact iter_sum2Body s (N - 1) (fun i hi => by omega)

theorem iter_sum4Body (s : State) (k : Nat) (hk : ∀ i, i < k → i + 3 < s.n.length) :
    iter k sum4Body s = some { s with trace := s.trace ++ gather (sum4Events s.n) k } := by
  induction k with
  | zero => simp [iter_zero, gather]
  | succ k ih =>
    have h3 : k + 3 < s.n.length := hk k (Nat.lt_succ_self k)
    have h2 : k + 2 < s.n.length := by omega
    have h1 : k + 1 < s.n.length := by omega
    have h0 : k < s.n.length := by omega
    rw [iter_succ, ih (fun i hi => hk i (Nat.lt_succ_of_lt hi))]
    simp [sum4Body, List.getElem?_eq_getElem, h0, h1, h2, h3, cell, gather, sum4Events]

theorem sum4Loop_eq (N : Nat) (s : State) (hN : s.n.length = N) :
    sum4Loop N s = some { s with trace := s.trace ++ gather (sum4Events s.n) (N - 3) } := by
  have e : ((N : Int) - 3).toNat = N - 3 := by omega
  rw [sum4Loop, forLoop, e]
  exact iter_sum4Body s (N - 3) (fun i hi => by omega)

theorem iter_innerBody (i : Nat) (x : ℚ) (s : State) (m : Nat) (hm : i + m ≤ s.n.length) :
    iter m (innerBody i) (x, s) =
      some (x + window s.n i m,
        { s with trace := s.trace ++ gather (fun j => [Event.read (i + j)]) m }) := by
  induction m with
  | zero => simp [iter_zero, gather, window]
  | succ m ih =>
    have h0 : i + m < s.n.length := by omega
    rw [iter_succ, ih (by omega)]
    simp [innerBody, List.getElem?_eq_getElem, h0, cell, gather, window,
      Finset.sum_range_succ, add_assoc]

theorem sum12Body_eq (i : Nat) (s : State) (hi : i + 12 ≤ s.n.length) :
    sum12Body i s = some { s with trace := s.trace ++ sum12Events s.n i } := by
  have h0 : i < s.n.length := by omega
  have e : ((12 : Int)).toNat = 12 := rfl
  simp only [sum12Body, forLoop, e, List.getElem?_eq_getElem, h0]
  rw [iter_innerBody i _ _ 12 (by exact hi)]
  simp [sum12Events, cell, List.getElem?_eq_getElem, h0]

theorem iter_sum12Body (s : State) (k : Nat) (hk : ∀ i, i < k → i + 12 ≤ s.n.length) :
    iter k sum12Body s = some { s with trace := s.trace ++ gather (sum12Events s.n) k } := by
  induction k with
  | zero => simp [iter_zero, gather]
  | succ k ih =>
    rw [iter_succ, ih (fun i hi => hk i (Nat.lt_succ_of_lt hi))]
    simp only [Option.some_bind]
    rw [sum12Body_eq k _ (by exact hk k (Nat.lt_succ_self k))]
    simp [gather]

theorem sum12Loop_eq (N : Nat) (s : State) (hN : s.n.length = N) :
    sum12Loop N s = some { s with trace := s.trace ++ gather (sum12Events s.n) (N - 11) } := by
  have e : ((N : Int) - 11).toNat = N - 11 := by omega
  rw [sum12Loop, forLoop, e]
  exact iter_sum12Body s (N - 11) (fun i hi => by omega)

theorem iter_genBody (env : Env) (s : State) (k : Nat) (hk : k ≤ s.n.length) :
    iter k (genBody env) s =
      some { n := (List.range k).map (fun i => env.ran (s.calls + i)) ++ s.n.drop k,
             calls := s.calls + k,
             trace := s.trace ++ gather (genEvents env s.calls) k } := by
  induction k with
  | zero => simp [iter_zero, gather]
  | succ k ih =>
    have h0 : k < s.n.length := by omega
    rw [iter_succ, ih (by omega)]
    have hd : List.drop k s.n = s.n[k] :: List.drop (k+1) s.n := List.drop_eq_getElem_cons h0
    have hlen : k < ((List.range k).map (fun i => env.ran (s.calls + i)) ++ s.n.drop k).length := by
      simp; omega
    simp only [Option.some_bind, genBody, hlen, if_true]
    rw [List.set_append]
    simp [List.range_succ, gather, genEvents, add_assoc]
    rw [hd, List.set_cons_zero]

theorem genLoop_eq (env : Env) (N : Nat) (s : State) (hN : s.n.length = N) :
    genLoop env N s =
      some { n := (List.range N).map (fun i => env.ran (s.calls + i)),
             calls := s.calls + N,
             trace := s.trace ++ gather (genEvents env s.calls) N } := by
  have e : ((N : Int)).toNat = N := by omega
  rw [genLoop, forLoop, e, iter_genBody env s N (by omega)]
  simp [← hN]

theorem slidingLoops_eq (N : Nat) (s : State) (hN : s.n.length = N) :
    slidingLoops N s = some { s with trace := s.trace ++ slidingEvents s.n N } := by
  rw [slidingLoops, sum2Loop_eq N s hN]
  simp only [Option.some_bind]
  rw [sum4Loop_eq N _ (by exact hN)]
  simp only [Option.some_bind]
  rw [sum12Loop_eq N _ (by exact hN)]
  simp [slidingEvents]

theorem mainFor_eq (N : Nat) (env : Env) :
    mainFor N env = some (0, { n := buffer env N, calls := N, trace := traceFor N env }) := by
  unfold mainFor
  simp only []
  rw [genLoop_eq env N _ (by simp)]
  simp only [Option.some_bind]
  rw [slidingLoops_eq N _ (by simp)]
  simp [traceFor, buffer]

theorem main_eq (env : Env) :
    main env = some (0, { n := buffer env numValues, calls := numValues,
                          trace := traceFor numValues env }) :=
  mainFor_eq numValues env

theorem fillsOf_append (h : HistId) (t u : List Event) :
    fillsOf h (t ++ u) = fillsOf h t ++ fillsOf h u := by
  simp [fillsOf, List.filterMap_append]

theorem readsOf_append (t u : List Event) : readsOf (t ++ u) = readsOf t ++ readsOf u := by
  simp [readsOf, List.filterMap_append]

theorem fillsOf_gather_one (h : HistId) (f : Nat → List Event) (g : Nat → ℚ)
    (hf : ∀ i, fillsOf h (f i) = [g i]) (k : Nat) :
    fillsOf h (gather f k) = (List.range k).map g := by
  induction k with
  | zero => rfl
  | succ k ih => rw [gather, fillsOf_append, ih, hf, List.range_succ, List.map_append]; rfl

theorem fillsOf_gather_none (h : HistId) (f : Nat → List Event)
    (hf : ∀ i, fillsOf h (f i) = []) (k : Nat) :
    fillsOf h (gather f k) = [] := by
  induction k with
  | zero => rfl
  | succ k ih => rw [gather, fillsOf_append, ih, hf]; rfl

theorem readsOf_gather_lt (f : Nat → List Event) (N k : Nat)
    (hf : ∀ i, i < k → ∀ r ∈ readsOf (f i), r < N) :
    ∀ r ∈ readsOf (gather f k), r < N := by
  induction k with
  | zero => intro r hr; simp [gather, readsOf] at hr
  | succ k ih =>
    intro r hr
    rw [gather, readsOf_append, List.mem_append] at hr
    rcases hr with hr | hr
    · exact ih (fun i hi => hf i (Nat.lt_succ_of_lt hi)) r hr
    · exact hf k (Nat.lt_succ_self k) r hr

theorem fillsOf_traceFor (h : HistId) (N : Nat) (env : Env) :
    fillsOf h (traceFor N env) =
      fillsOf h (gather (genEvents env 0) N) ++
        (fillsOf h (gather (sum2Events (buffer env N)) (N - 1)) ++
          (fillsOf h (gather (sum4Events (buffer env N)) (N - 3)) ++
            fillsOf h (gather (sum12Events (buffer env N)) (N - 11)))) := by
  have e : traceFor N env = [Event.fileOpen env.openOk] ++ (gather (genEvents env 0) N ++
      (slidingEvents (buffer env N) N ++ [Event.fileWrite env.writeOk, Event.fileClose])) := rfl
  rw [e, slidingEvents]
  simp only [fillsOf_append]
  simp [fillsOf, Event.fillValue]

theorem fillsOf_reads (h : HistId) (i k : Nat) :
    fillsOf h (gather (fun j => [Event.read (i + j)]) k) = [] :=
  fillsOf_gather_none h (fun j => [Event.read (i + j)]) (fun _ => rfl) k

theorem fillsOf_h_3_sum12Events (n : List ℚ) (i : Nat) :
    fillsOf HistId.h_3 (sum12Events n i) = [cell n i + window n i 12 - 6] := by
  have e : sum12Events n i = [Event.read i] ++ (gather (fun j => [Event.read (i + j)]) 12 ++
    [Event.fill HistId.h_3 (cell n i + window n i 12 - 6)]) := rfl
  rw [e, fillsOf_append, fillsOf_append, fillsOf_reads]
  simp [fillsOf, Event.fillValue]

theorem fillsOf_h_3_traceFor (N : Nat) (env : Env) :
    fillsOf HistId.h_3 (traceFor N env) =
      (List.range (N - 11)).map
        (fun i => cell (buffer env N) i + window (buffer env N) i 12 - 6) := by
  rw [fillsOf_traceFor,
    fillsOf_gather_none HistId.h_3 (genEvents env 0) (fun _ => rfl),
    fillsOf_gather_none HistId.h_3 (sum2Events _) (fun _ => rfl),
    fillsOf_gather_none HistId.h_3 (sum4Events _) (fun _ => rfl),
    fillsOf_gather_one HistId.h_3 (sum12Events _) _ (fillsOf_h_3_sum12Events _)]
  rfl

theorem fillsOf_other_sum12Events (h : HistId) (hne : h ≠ HistId.h_3) (n : List ℚ) (i : Nat) :
    fillsOf h (sum12Events n i) = [] := by
  have e : sum12Events n i = [Event.read i] ++ (gather (fun j => [Event.read (i + j)]) 12 ++
    [Event.fill HistId.h_3 (cell n i + window n i 12 - 6)]) := rfl
  rw [e, fillsOf_append, fillsOf_append, fillsOf_reads]
  simp [fillsOf, Event.fillValue, Ne.symm hne]

theorem fillsOf_h_Exp_traceFor (N : Nat) (env : Env) :
    fillsOf HistId.h_Exp (traceFor N env) =
      (List.range N).map (fun i => - xi * env.log (env.ran i)) := by
  rw [fillsOf_traceFor,
    fillsOf_gather_one HistId.h_Exp (genEvents env 0)
      (fun i => - xi * env.log (env.ran i)) (fun i => by simp [genEvents, fillsOf, Event.fillValue]),
    fillsOf_gather_none HistId.h_Exp (sum2Events _) (fun _ => rfl),
    fillsOf_gather_none HistId.h_Exp (sum4Events _) (fun _ => rfl),
    fillsOf_gather_none HistId.h_Exp (sum12Events _)
      (fillsOf_other_sum12Events _ (by decide) _)]
  simp

theorem fillsOf_h_Uni_traceFor (N : Nat) (env : Env) :
    fillsOf HistId.h_Uni (traceFor N env) = (List.range N).map env.ran := by
  rw [fillsOf_traceFor,
    fillsOf_gather_one HistId.h_Uni (genEvents env 0)
      (fun i => env.ran i) (fun i => by simp [genEvents, fillsOf, Event.fillValue]),
    fillsOf_gather_none HistId.h_Uni (sum2Events _) (fun _ => rfl),
    fillsOf_gather_none HistId.h_Uni (sum4Events _) (fun _ => rfl),
    fillsOf_gather_none HistId.h_Uni (sum12Events _)
      (fillsOf_other_sum12Events _ (by decide) _)]
  simp

theorem cell_buffer (env : Env) (N i : Nat) (hi : i < N) : cell (buffer env N) i = env.ran i := by
  simp [cell, buffer, List.getElem?_map, List.getElem?_range, hi]

theorem window_buffer (env : Env) (N i w : Nat) (hi : i + w ≤ N) :
    window (buffer env N) i w = ∑ j in Finset.range w, env.ran (i + j) := by
  unfold window
  apply Finset.sum_congr rfl
  intro j hj
  have := Finset.mem_range.mp hj
  exact cell_buffer env N (i + j) (by omega)

theorem fillsOf_h_3_traceFor_ran (N : Nat) (env : Env) :
    fillsOf HistId.h_3 (traceFor N env) =
      (List.range (N - 11)).map
        (fun i => env.ran i + (∑ j in Finset.range 12, env.ran (i + j)) - 6) := by
  rw [fillsOf_h_3_traceFor]
  apply List.map_congr_left
  intro i hi
  have := List.mem_range.mp hi
  rw [cell_buffer env N i (by omega), window_buffer env N i 12 (by omega)]

theorem readsOf_sum2Events (n : List ℚ) (i : Nat) : readsOf (sum2Events n i) = [i, i + 1] := rfl

theorem readsOf_sum4Events (n : List ℚ) (i : Nat) :
    readsOf (sum4Events n i) = [i, i + 1, i + 2, i + 3] := rfl

theorem readsOf_sum12Events_lt (n : List ℚ) (N i : Nat) (hi : i + 12 ≤ N) :
    ∀ r ∈ readsOf (sum12Events n i), r < N := by
  have e : sum12Events n i = [Event.read i] ++ (gather (fun j => [Event.read (i + j)]) 12 ++
    [Event.fill HistId.h_3 (cell n i + window n i 12 - 6)]) := rfl
  intro r hr
  rw [e, readsOf_append, readsOf_append, List.mem_append, List.mem_append] at hr
  rcases hr with hr | hr | hr
  · have : r = i := by simpa [readsOf, Event.readIndex] using hr
    omega
  · refine readsOf_gather_lt _ N 12 (fun j hj r hr => ?_) r hr
    have : r = i + j := by simpa [readsOf, Event.readIndex] using hr
    omega
  · simp [readsOf, Event.readIndex] at hr

theorem readsOf_slidingEvents_lt (n : List ℚ) (N : Nat) :
    ∀ r ∈ readsOf (slidingEvents n N), r < N := by
  intro r hr
  rw [slidingEvents, readsOf_append, readsOf_append, List.mem_append, List.mem_append] at hr
  rcases hr with hr | hr | hr
  · refine readsOf_gather_lt _ N (N - 1) (fun i hi r hr => ?_) r hr
    rw [readsOf_sum2Events] at hr
    simp at hr
    omega
  · refine readsOf_gather_lt _ N (N - 3) (fun i hi r hr => ?_) r hr
    rw [readsOf_sum4Events] at hr
    simp at hr
    omega
  · exact readsOf_gather_lt _ N (N - 11)
      (fun i hi => readsOf_sum12Events_lt n N i (by omega)) r hr

/-- C2: for a buffer of any length `N` (in particular `N = 10000` and every
`N ≥ 12`), the sum-of-2, sum-of-4 and sum-of-12 loops run to completion without
an out-of-range access, and every index of `n` they load is below `N`. -/
theorem slidingLoops_reads_in_bounds (N : Nat) (s : State) (hN : s.n.length = N) :
    ∃ t, slidingLoops N s = some { s with trace := s.trace ++ t } ∧
      ∀ k ∈ readsOf t, k < N :=
  ⟨slidingEvents s.n N, slidingLoops_eq N s hN, readsOf_slidingEvents_lt s.n N⟩

theorem slidingLoops_reads_in_bounds_witness :
    (State.mk (List.replicate 10000 0) 0 []).n.length = 10000 ∧
    ∃ t, slidingLoops 10000 (State.mk (List.replicate 10000 0) 0 []) =
        some { State.mk (List.replicate 10000 0) 0 [] with
               trace := (State.mk (List.replicate 10000 0) 0 []).trace ++ t } ∧
      ∀ k ∈ readsOf t, k < 10000 :=
  ⟨List.length_replicate _ _, slidingLoops_reads_in_bounds 10000 _ (List.length_replicate _ _)⟩

theorem halfState_length : halfState.n.length = 10000 := List.length_replicate _ _

theorem numValues_sub_eleven : numValues - 11 = 9989 := by decide

/-- C1: the value that the sum-of-12 loop passes to the fill of `h_3` at index
`i` is `n[i] + (n[i] + n[i+1] + ... + n[i+11]) - 6`: the first cell of the
window is counted twice.  With every buffer value equal to 1/2 the first value
filled is 1/2, whereas the sum of the twelve window cells minus 6 is 0. -/
theorem sum12_counts_first_cell_twice :
    (∀ env : Env, (main env).map (fun p => fillsOf HistId.h_3 p.2.trace) =
      some ((List.range 9989).map
        (fun i => env.ran i + (∑ j in Finset.range 12, env.ran (i + j)) - 6))) ∧
    (main halfEnv).map (fun p => (fillsOf HistId.h_3 p.2.trace)[0]?) = some (some (1 / 2)) ∧
    (∑ j in Finset.range 12, halfEnv.ran (0 + j)) - 6 = 0 := by
  have h : ∀ env : Env, (main env).map (fun p => fillsOf HistId.h_3 p.2.trace) =
      some ((List.range 9989).map
        (fun i => env.ran i + (∑ j in Finset.range 12, env.ran (i + j)) - 6)) := by
    intro env
    rw [main_eq, Option.map_some', fillsOf_h_3_traceFor_ran, numValues_sub_eleven]
  refine ⟨h, ?_, ?_⟩
  · rw [main_eq, Option.map_some', fillsOf_h_3_traceFor_ran, numValues_sub_eleven]
    rw [List.getElem?_map, List.getElem?_range (by decide)]
    norm_num [halfEnv, Finset.sum_const]
  · norm_num [halfEnv, Finset.sum_const]

theorem fillsOf_h_1_sum2 (n : List ℚ) (k : Nat) :
    fillsOf HistId.h_1 (gather (sum2Events n) k) =
      (List.range k).map (fun i => cell n i + cell n (i + 1) - 1) :=
  fillsOf_gather_one HistId.h_1 (sum2Events n) _ (fun _ => rfl) k

theorem fillsOf_h_2_sum4 (n : List ℚ) (k : Nat) :
    fillsOf HistId.h_2 (gather (sum4Events n) k) =
      (List.range k).map
        (fun i => cell n i + cell n (i + 1) + cell n (i + 2) + cell n (i + 3) - 2) :=
  fillsOf_gather_one HistId.h_2 (sum4Events n) _ (fun _ => rfl) k

/-- C3 (amended): for a buffer `n` of length `N` (in particular `N = 10000`),
the values that the sum-of-2 loop fills into `h_1` are exactly
`n[i] + n[i+1] - 1` for `i = 0, 1, ..., N-2`, one per `i` in `[0, N-1)` in
increasing order, `N - 1` values in total. -/
theorem sum2Loop_fills (N : Nat) (s : State) (hN : s.n.length = N) :
    ∃ t, sum2Loop N s = some { s with trace := s.trace ++ t } ∧
      fillsOf HistId.h_1 t =
        (List.range (N - 1)).map (fun i => cell s.n i + cell s.n (i + 1) - 1) ∧
      (fillsOf HistId.h_1 t).length = N - 1 := by
  refine ⟨gather (sum2Events s.n) (N - 1), sum2Loop_eq N s hN, fillsOf_h_1_sum2 s.n (N - 1), ?_⟩
  rw [fillsOf_h_1_sum2, List.length_map, List.length_range]

theorem sum2Loop_fills_witness :
    halfState.n.length = 10000 ∧
    ∃ t, sum2Loop 10000 halfState = some { halfState with trace := halfState.trace ++ t } ∧
      fillsOf HistId.h_1 t =
        (List.range (10000 - 1)).map
          (fun i => cell halfState.n i + cell halfState.n (i + 1) - 1) ∧
      (fillsOf HistId.h_1 t).length = 10000 - 1 :=
  ⟨halfState_length, sum2Loop_fills 10000 halfState halfState_length⟩

/-- C3 (as stated) fails: on the buffer of 10000 values 1/2, the values filled
into `h_1` by the sum-of-2 loop are not the list indexed by `i = 0, ..., N-3`. -/
theorem sum2Loop_fills_not_upto_N_sub_two :
    (sum2Loop 10000 halfState).map (fun s => fillsOf HistId.h_1 s.trace) ≠
      some ((List.range (10000 - 2)).map
        (fun i => cell halfState.n i + cell halfState.n (i + 1) - 1)) := by
  rw [sum2Loop_eq 10000 halfState halfState_length, Option.map_some']
  intro h
  have hl := congrArg List.length (Option.some.inj h)
  simp only [fillsOf_append, fillsOf_h_1_sum2, List.length_append, List.length_map,
    List.length_range] at hl
  have h0 : (fillsOf HistId.h_1 halfState.trace).length = 0 := rfl
  rw [h0] at hl
  omega

/-- C4 (amended): for a buffer `n` of length `N` (in particular `N = 10000`),
the values that the sum-of-4 loop fills into `h_2` are exactly
`n[i] + n[i+1] + n[i+2] + n[i+3] - 2` for `i = 0, 1, ..., N-4`, one per `i` in
`[0, N-3)` in increasing order, `N - 3` values in total. -/
theorem sum4Loop_fills (N : Nat) (s : State) (hN : s.n.length = N) :
    ∃ t, sum4Loop N s = some { s with trace := s.trace ++ t } ∧
      fillsOf HistId.h_2 t =
        (List.range (N - 3)).map
          (fun i => cell s.n i + cell s.n (i + 1) + cell s.n (i + 2) + cell s.n (i + 3) - 2) ∧
      (fillsOf HistId.h_2 t).length = N - 3 := by
  refine ⟨gather (sum4Events s.n) (N - 3), sum4Loop_eq N s hN, fillsOf_h_2_sum4 s.n (N - 3), ?_⟩
  rw [fillsOf_h_2_sum4, List.length_map, List.length_range]

theorem sum4Loop_fills_witness :
    halfState.n.length = 10000 ∧
    ∃ t, sum4Loop 10000 halfState = some { halfState with trace := halfState.trace ++ t } ∧
      fillsOf HistId.h_2 t =
        (List.range (10000 - 3)).map
          (fun i => cell halfState.n i + cell halfState.n (i + 1) + cell halfState.n (i + 2)
            + cell halfState.n (i + 3) - 2) ∧
      (fillsOf HistId.h_2 t).length = 10000 - 3 :=
  ⟨halfState_length, sum4Loop_fills 10000 halfState halfState_length⟩

/-- C4 (as stated) fails: on the buffer of 10000 values 1/2, the values filled
into `h_2` by the sum-of-4 loop are not the list indexed by `i = 0, ..., N-5`. -/
theorem sum4Loop_fills_not_upto_N_sub_four :
    (sum4Loop 10000 halfState).map (fun s => fillsOf HistId.h_2 s.trace) ≠
      some ((List.range (10000 - 4)).map
        (fun i => cell halfState.n i + cell halfState.n (i + 1) + cell halfState.n (i + 2)
          + cell halfState.n (i + 3) - 2)) := by
  rw [sum4Loop_eq 10000 halfState halfState_length, Option.map_some']
  intro h
  have hl := congrArg List.length (Option.some.inj h)
  simp only [fillsOf_append, fillsOf_h_2_sum4, List.length_append, List.length_map,
    List.length_range] at hl
  have h0 : (fillsOf HistId.h_2 halfState.trace).length = 0 := rfl
  rw [h0] at hl
  omega

/-- C5 (amended): in a run of `main` (`N = 10000`) the number of values filled
into `h_3` is `10000 - 11 = 9989`, one per index of the sum-of-12 loop over
`[0, N-11)`. -/
theorem h_3_fill_count (env : Env) :
    (main env).map (fun p => (fillsOf HistId.h_3 p.2.trace).length) = some 9989 := by
  rw [main_eq, Option.map_some', fillsOf_h_3_traceFor, List.length_map, List.length_range,
    numValues_sub_eleven]

/-- C5 (as stated) fails: the run with the generator constantly 1/2 does not
fill 9988 values into `h_3`. -/
theorem h_3_fill_count_not_9988 :
    (main halfEnv).map (fun p => (fillsOf HistId.h_3 p.2.trace).length) ≠ some 9988 := by
  rw [main_eq, Option.map_some', fillsOf_h_3_traceFor, List.length_map, List.length_range,
    numValues_sub_eleven]
  decide

/-- C6 (amended): `main` returns exit code 0 in every run, whether or not the
output file could be opened and written; the outcome of the file operations is
never inspected. -/
theorem main_exit_code_zero (env : Env) : (main env).map Prod.fst = some 0 := by
  rw [main_eq, Option.map_some']

/-- C6 (as stated) fails: when the output file can be neither opened nor
written, `main` still returns 0. -/
theorem main_exit_code_zero_on_failure :
    ¬ ((main failEnv).map Prod.fst = some 0 ↔
        (failEnv.openOk = true ∧ failEnv.writeOk = true)) := by
  rw [main_eq, Option.map_some']
  simp [failEnv]

/-- C8: in every run of `main` (seed 12345, `N = 10000`, `xi = 1.0`), the values
filled into `h_Exp` are exactly `-xi * log(r_i)` for the buffer indices
`i = 0, ..., 9999`, one fill per index and none elsewhere; their number is 10000. -/
theorem h_Exp_fill_count (env : Env) :
    (main env).map (fun p => fillsOf HistId.h_Exp p.2.trace) =
      some ((List.range 10000).map (fun i => - xi * env.log (env.ran i))) ∧
    (main env).map (fun p => (fillsOf HistId.h_Exp p.2.trace).length) = some 10000 := by
  have e : numValues = 10000 := rfl
  constructor
  · rw [main_eq, Option.map_some', fillsOf_h_Exp_traceFor, e]
  · rw [main_eq, Option.map_some', fillsOf_h_Exp_traceFor, List.length_map, List.length_range, e]

theorem incrAt_length (l : List Nat) (k : Nat) : (incrAt l k).length = l.length := by
  induction l generalizing k with
  | nil => rfl
  | cons c cs ih => cases k with
    | zero => rfl
    | succ k => simp [incrAt, ih]

theorem incrAt_sum (l : List Nat) (k : Nat) (hk : k < l.length) :
    (incrAt l k).sum = l.sum + 1 := by
  induction l generalizing k with
  | nil => simp at hk
  | cons c cs ih => cases k with
    | zero => simp [incrAt]; omega
    | succ k =>
      have := ih k (by simpa using hk)
      simp [incrAt, this]; omega

theorem incrAt_getD (l : List Nat) (k j : Nat) (hk : k < l.length) :
    (incrAt l k).getD j 0 = l.getD j 0 + (if j = k then 1 else 0) := by
  induction l generalizing k j with
  | nil => simp at hk
  | cons c cs ih => cases k with
    | zero => cases j with
      | zero => simp [incrAt]
      | succ j => simp [incrAt]
    | succ k => cases j with
      | zero => simp [incrAt]
      | succ j =>
        have := ih k j (by simpa using hk)
        simpa [incrAt] using this

theorem binOf_bounds (h : Histogram) (v : ℚ) (hn : 0 < h.nbins) (hr : h.lo < h.hi)
    (hv : h.lo ≤ v ∧ v < h.hi) : 0 ≤ h.binOf v ∧ h.binOf v < h.nbins := by
  have hnq : (0 : ℚ) < h.nbins := by exact_mod_cast hn
  have hw : 0 < h.binWidth := div_pos (sub_pos.mpr hr) hnq
  constructor
  · exact Int.floor_nonneg.mpr (div_nonneg (sub_nonneg.mpr hv.1) hw.le)
  · rw [Histogram.binOf, Int.floor_lt, div_lt_iff₀ hw]
    have e : ((h.nbins : Int) : ℚ) * h.binWidth = h.hi - h.lo := by
      rw [Histogram.binWidth]; push_cast; field_simp
    rw [e]; linarith [hv.2]

theorem fill_inside (h : Histogram) (v : ℚ) (hv : h.lo ≤ v ∧ v < h.hi) :
    h.fill v = { h with bins := incrAt h.bins (h.binOf v).toNat } := by
  rw [Histogram.fill, if_pos hv]

theorem fill_outside_bins (h : Histogram) (v : ℚ) (hv : ¬ (h.lo ≤ v ∧ v < h.hi)) :
    (h.fill v).bins = h.bins := by
  rw [Histogram.fill, if_neg hv]
  split <;> rfl

theorem fill_shaped (h : Histogram) (v : ℚ) (nb : Nat) (lo hi : ℚ) (hs : h.Shaped nb lo hi) :
    (h.fill v).Shaped nb lo hi := by
  obtain ⟨h1, h2, h3, h4⟩ := hs
  unfold Histogram.fill
  split
  · exact ⟨h1, by simpa [incrAt_length] using h2, h3, h4⟩
  · split
    · exact ⟨h1, h2, h3, h4⟩
    · exact ⟨h1, h2, h3, h4⟩

theorem fillAll_shaped (vs : List ℚ) (h : Histogram) (nb : Nat) (lo hi : ℚ)
    (hs : h.Shaped nb lo hi) : (h.fillAll vs).Shaped nb lo hi := by
  induction vs generalizing h with
  | nil => exact hs
  | cons v vs ih => exact ih (h.fill v) (fill_shaped h v nb lo hi hs)

theorem create_shaped (name title : String) (nb : Nat) (lo hi : ℚ) :
    (Histogram.create name title nb lo hi).Shaped nb lo hi :=
  ⟨rfl, List.length_replicate _ _, rfl, rfl⟩

theorem create_total (name title : String) (nb : Nat) (lo hi : ℚ) :
    (Histogram.create name title nb lo hi).total = 0 := by
  simp [Histogram.create, Histogram.total]

theorem toNat_binOf_lt (h : Histogram) (v : ℚ) (hn : 0 < h.nbins) (hr : h.lo < h.hi)
    (hv : h.lo ≤ v ∧ v < h.hi) : (h.binOf v).toNat < h.nbins := by
  have := binOf_bounds h v hn hr hv
  omega

theorem fill_total (h : Histogram) (v : ℚ) (hn : 0 < h.nbins) (hb : h.bins.length = h.nbins)
    (hr : h.lo < h.hi) :
    (h.fill v).total = h.total + (if h.inRange v then 1 else 0) := by
  by_cases hv : h.lo ≤ v ∧ v < h.hi
  · have hk := toNat_binOf_lt h v hn hr hv
    rw [fill_inside h v hv]
    simp [Histogram.total, Histogram.inRange, hv, incrAt_sum _ _ (hb ▸ hk)]
  · simp [Histogram.total, Histogram.inRange, hv, fill_outside_bins h v hv]

theorem fillAll_total (vs : List ℚ) (h : Histogram) (nb : Nat) (lo hi : ℚ)
    (hs : h.Shaped nb lo hi) (hn : 0 < nb) (hr : lo < hi) :
    (h.fillAll vs).total =
      h.total + (vs.filter (fun x => decide (lo ≤ x ∧ x < hi))).length := by
  induction vs generalizing h with
  | nil => simp [Histogram.fillAll]
  | cons v vs ih =>
    obtain ⟨h1, h2, h3, h4⟩ := hs
    have e : h.fillAll (v :: vs) = (h.fill v).fillAll vs := rfl
    rw [e, ih (h.fill v) (fill_shaped h v nb lo hi ⟨h1, h2, h3, h4⟩),
      fill_total h v (h1 ▸ hn) (h2.trans h1.symm) (h3 ▸ h4 ▸ hr)]
    by_cases hv : lo ≤ v ∧ v < hi
    · simp [Histogram.inRange, h3, h4, hv, List.filter_cons]; omega
    · simp [Histogram.inRange, h3, h4, hv, List.filter_cons]

theorem fill_flows_inside (h : Histogram) (v : ℚ) (hv : h.lo ≤ v ∧ v < h.hi) :
    (h.fill v).underflow = h.underflow ∧ (h.fill v).overflow = h.overflow := by
  rw [fill_inside h v hv]
  exact ⟨rfl, rfl⟩

theorem fillAll_flows_inside (vs : List ℚ) (h : Histogram) (nb : Nat) (lo hi : ℚ)
    (hs : h.Shaped nb lo hi) (hvs : ∀ v ∈ vs, lo ≤ v ∧ v < hi) :
    (h.fillAll vs).underflow = h.underflow ∧ (h.fillAll vs).overflow = h.overflow := by
  induction vs generalizing h with
  | nil => exact ⟨rfl, rfl⟩
  | cons v vs ih =>
    have e : h.fillAll (v :: vs) = (h.fill v).fillAll vs := rfl
    have hv : h.lo ≤ v ∧ v < h.hi := by
      rw [hs.2.2.1, hs.2.2.2]; exact hvs v (List.mem_cons_self v vs)
    have := ih (h.fill v) (fill_shaped h v nb lo hi hs)
      (fun x hx => hvs x (List.mem_cons_of_mem v hx))
    rw [e, this.1, this.2]
    exact fill_flows_inside h v hv

theorem book_shaped_h_1 : (book HistId.h_1).Shaped 100 0 1 := create_shaped _ _ _ _ _

theorem book_shaped_h_Uni : (book HistId.h_Uni).Shaped 100 0 1 := create_shaped _ _ _ _ _

theorem histogramOf_shaped_h_1 (t : List Event) : (histogramOf HistId.h_1 t).Shaped 100 0 1 :=
  fillAll_shaped _ _ _ _ _ book_shaped_h_1

theorem histogramOf_shaped_h_Uni (t : List Event) :
    (histogramOf HistId.h_Uni t).Shaped 100 0 1 :=
  fillAll_shaped _ _ _ _ _ book_shaped_h_Uni

/-- C7: for a histogram with 100 bins over `[lo, hi)` and a value `v`: if
`lo <= v < hi`, the bin index `floor((v - lo) / binWidth)` lies in `0..99` and
`fill v` adds 1 to the count of that bin and leaves every other bin unchanged;
if `v < lo` or `v >= hi`, `fill v` leaves all bin counts unchanged.  Hence
filling a sequence of values raises the total of the bin counts by the number
of in-range values, and from a freshly created histogram the total equals that
number. -/
theorem fill_contract (h : Histogram) (v : ℚ) (hn : h.nbins = 100)
    (hb : h.bins.length = 100) (hr : h.lo < h.hi) :
    (h.lo ≤ v ∧ v < h.hi →
      0 ≤ h.binOf v ∧ h.binOf v < 100 ∧ (h.fill v).bins.length = 100 ∧
      ∀ k : Nat, (h.fill v).bins.getD k 0 =
        h.bins.getD k 0 + (if (k : Int) = h.binOf v then 1 else 0)) ∧
    (v < h.lo ∨ h.hi ≤ v → (h.fill v).bins = h.bins) ∧
    (∀ vs : List ℚ, (h.fillAll vs).total = h.total + (vs.filter h.inRange).length) ∧
    (∀ (name title : String) (vs : List ℚ),
      ((Histogram.create name title 100 h.lo h.hi).fillAll vs).total =
        (vs.filter h.inRange).length) := by
  have hpos : 0 < h.nbins := by omega
  refine ⟨fun hv => ?_, fun hv => ?_, fun vs => ?_, fun name title vs => ?_⟩
  · have hbd := binOf_bounds h v hpos hr hv
    rw [hn] at hbd
    have hk : (h.binOf v).toNat < h.bins.length := by omega
    refine ⟨hbd.1, by exact_mod_cast hbd.2, ?_, fun k => ?_⟩
    · rw [fill_inside h v hv]; simpa [incrAt_length] using hb
    · rw [fill_inside h v hv]
      have e : ((k : Int) = h.binOf v) ↔ k = (h.binOf v).toNat := by omega
      simp only [e]
      exact incrAt_getD h.bins (h.binOf v).toNat k hk
  · apply fill_outside_bins
    rintro ⟨h1, h2⟩
    rcases hv with hv | hv
    · exact absurd h1 (not_le.mpr hv)
    · exact absurd h2 (not_lt.mpr hv)
  · exact fillAll_total vs h 100 h.lo h.hi ⟨hn, hb, rfl, rfl⟩ (by decide) hr
  · have := fillAll_total vs (Histogram.create name title 100 h.lo h.hi) 100 h.lo h.hi
      (create_shaped _ _ _ _ _) (by decide) hr
    rw [create_total, Nat.zero_add] at this
    exact this

theorem fill_contract_witness :
    ((book HistId.h_Uni).nbins = 100 ∧ (book HistId.h_Uni).bins.length = 100 ∧
      (book HistId.h_Uni).lo < (book HistId.h_Uni).hi) ∧
    ((book HistId.h_Uni).lo ≤ 1 / 2 ∧ 1 / 2 < (book HistId.h_Uni).hi →
      0 ≤ (book HistId.h_Uni).binOf (1 / 2) ∧ (book HistId.h_Uni).binOf (1 / 2) < 100 ∧
      ((book HistId.h_Uni).fill (1 / 2)).bins.length = 100 ∧
      ∀ k : Nat, ((book HistId.h_Uni).fill (1 / 2)).bins.getD k 0 =
        (book HistId.h_Uni).bins.getD k 0 +
          (if (k : Int) = (book HistId.h_Uni).binOf (1 / 2) then 1 else 0)) ∧
    ((1 : ℚ) / 2 < (book HistId.h_Uni).lo ∨ (book HistId.h_Uni).hi ≤ 1 / 2 →
      ((book HistId.h_Uni).fill (1 / 2)).bins = (book HistId.h_Uni).bins) ∧
    (∀ vs : List ℚ, ((book HistId.h_Uni).fillAll vs).total =
      (book HistId.h_Uni).total + (vs.filter (book HistId.h_Uni).inRange).length) ∧
    (∀ (name title : String) (vs : List ℚ),
      ((Histogram.create name title 100 (book HistId.h_Uni).lo
          (book HistId.h_Uni).hi).fillAll vs).total =
        (vs.filter (book HistId.h_Uni).inRange).length) :=
  ⟨⟨rfl, rfl, by norm_num [book, Histogram.create]⟩,
   fill_contract (book HistId.h_Uni) (1 / 2) rfl rfl (by norm_num [book, Histogram.create])⟩

theorem x1_fill_h_1 (a b : ℚ) (ha0 : 0 ≤ a) (ha1 : a < 1) (hb0 : 0 ≤ b) (hb1 : b < 1)
    (t : List Event) :
    -1 ≤ x1 a b ∧ x1 a b < 1 ∧
    (((histogramOf HistId.h_1 t).fill (x1 a b)).total = (histogramOf HistId.h_1 t).total + 1
      ↔ 1 ≤ a + b) ∧
    (x1 a b < 0 →
      ((histogramOf HistId.h_1 t).fill (x1 a b)).bins = (histogramOf HistId.h_1 t).bins ∧
      ((histogramOf HistId.h_1 t).fill (x1 a b)).underflow =
        (histogramOf HistId.h_1 t).underflow + 1) := by
  obtain ⟨h1, h2, h3, h4⟩ := histogramOf_shaped_h_1 t
  have hx : x1 a b = a + b - 1 := rfl
  refine ⟨by rw [hx]; linarith, by rw [hx]; linarith, ?_, fun hneg => ?_⟩
  · rw [fill_total _ _ (by omega) (h2.trans h1.symm) (by rw [h3, h4]; norm_num)]
    simp only [Histogram.inRange, h3, h4, hx]
    by_cases hab : 1 ≤ a + b
    · have : (0 : ℚ) ≤ a + b - 1 ∧ a + b - 1 < 1 := ⟨by linarith, by linarith⟩
      simp [this, hab]
    · have : ¬ ((0 : ℚ) ≤ a + b - 1 ∧ a + b - 1 < 1) := fun hh => hab (by linarith [hh.1])
      simp [this, hab]
  · have hlt : x1 a b < (histogramOf HistId.h_1 t).lo := by rw [h3]; exact hneg
    have hout : ¬ ((histogramOf HistId.h_1 t).lo ≤ x1 a b ∧
        x1 a b < (histogramOf HistId.h_1 t).hi) := fun hh => absurd hh.1 (not_le.mpr hlt)
    refine ⟨fill_outside_bins _ _ hout, ?_⟩
    rw [Histogram.fill, if_neg hout, if_pos hlt]

theorem fillAll_total_inside (vs : List ℚ) (h : Histogram) (nb : Nat) (lo hi : ℚ)
    (hs : h.Shaped nb lo hi) (hn : 0 < nb) (hr : lo < hi)
    (hvs : ∀ v ∈ vs, lo ≤ v ∧ v < hi) :
    (h.fillAll vs).total = h.total + vs.length := by
  rw [fillAll_total vs h nb lo hi hs hn hr]
  have : vs.filter (fun x => decide (lo ≤ x ∧ x < hi)) = vs :=
    List.filter_eq_self.mpr (fun v hv => decide_eq_true (hvs v hv))
  rw [this]

theorem histogramOf_h_Uni_traceFor (N : Nat) (env : Env)
    (hran : ∀ k, k < N → 0 ≤ env.ran k ∧ env.ran k < 1) :
    (histogramOf HistId.h_Uni (traceFor N env)).total = N ∧
    (histogramOf HistId.h_Uni (traceFor N env)).underflow = 0 ∧
    (histogramOf HistId.h_Uni (traceFor N env)).overflow = 0 := by
  have hvs : ∀ v ∈ (List.range N).map env.ran, (0 : ℚ) ≤ v ∧ v < 1 := by
    intro v hv
    obtain ⟨k, hk, rfl⟩ := List.mem_map.mp hv
    exact hran k (List.mem_range.mp hk)
  rw [histogramOf, fillsOf_h_Uni_traceFor]
  have ht := fillAll_total_inside _ (book HistId.h_Uni) 100 0 1 book_shaped_h_Uni
    (by decide) (by norm_num) hvs
  have hf := fillAll_flows_inside _ (book HistId.h_Uni) 100 0 1 book_shaped_h_Uni hvs
  refine ⟨?_, hf.1, hf.2⟩
  rw [ht, List.length_map, List.length_range]
  exact Nat.zero_add N

/-- C10: a uniform value `r` with `0 <= r < 1` filled into `h_Uni` (100 bins over
`[0, 1)`, in any state reached by earlier fills) lands in the bin of index
`floor(r * 100)`, which lies in `0..99`, and in neither underflow nor overflow;
hence, when the 10000 generated values all lie in `[0, 1)`, after the run the
100 bin counts of `h_Uni` total exactly 10000 and its underflow and overflow
counts are 0. -/
theorem h_Uni_total (env : Env) (hran : ∀ k, k < 10000 → 0 ≤ env.ran k ∧ env.ran k < 1)
    (t : List Event) (r : ℚ) (hr0 : 0 ≤ r) (hr1 : r < 1) :
    ((histogramOf HistId.h_Uni t).binOf r = Int.floor (r * 100) ∧
      0 ≤ Int.floor (r * 100) ∧ Int.floor (r * 100) ≤ 99 ∧
      ((histogramOf HistId.h_Uni t).fill r).underflow = (histogramOf HistId.h_Uni t).underflow ∧
      ((histogramOf HistId.h_Uni t).fill r).overflow = (histogramOf HistId.h_Uni t).overflow ∧
      ((histogramOf HistId.h_Uni t).fill r).total = (histogramOf HistId.h_Uni t).total + 1) ∧
    (main env).map (fun p => (histogramOf HistId.h_Uni p.2.trace).total) = some 10000 ∧
    (main env).map (fun p => (histogramOf HistId.h_Uni p.2.trace).underflow) = some 0 ∧
    (main env).map (fun p => (histogramOf HistId.h_Uni p.2.trace).overflow) = some 0 := by
  obtain ⟨h1, h2, h3, h4⟩ := histogramOf_shaped_h_Uni t
  have hv : (histogramOf HistId.h_Uni t).lo ≤ r ∧ r < (histogramOf HistId.h_Uni t).hi := by
    rw [h3, h4]; exact ⟨hr0, hr1⟩
  have hlohi : (histogramOf HistId.h_Uni t).lo < (histogramOf HistId.h_Uni t).hi := by
    rw [h3, h4]; norm_num
  have hbin : (histogramOf HistId.h_Uni t).binOf r = Int.floor (r * 100) := by
    rw [Histogram.binOf, Histogram.binWidth, h1, h3, h4]
    congr 1
    norm_num
    rw [div_div_eq_mul_div, div_one]
  have hbd := binOf_bounds _ r (by omega) hlohi hv
  rw [h1, hbin] at hbd
  have hfl := fill_flows_inside _ r hv
  have htot := fill_total (histogramOf HistId.h_Uni t) r (by omega) (h2.trans h1.symm) hlohi
  have hin : (histogramOf HistId.h_Uni t).inRange r = true := decide_eq_true hv
  rw [hin, if_pos rfl] at htot
  have hmain := histogramOf_h_Uni_traceFor numValues env hran
  have e : numValues = 10000 := rfl
  refine ⟨⟨hbin, hbd.1, by have := hbd.2; omega, hfl.1, hfl.2, htot⟩, ?_, ?_, ?_⟩
  · rw [main_eq, Option.map_some', hmain.1, e]
  · rw [main_eq, Option.map_some', hmain.2.1]
  · rw [main_eq, Option.map_some', hmain.2.2]

theorem h_Uni_total_witness :
    ((∀ k, k < 10000 → 0 ≤ halfEnv.ran k ∧ halfEnv.ran k < 1) ∧ (0 : ℚ) ≤ 1 / 2 ∧
      (1 : ℚ) / 2 < 1) ∧
    (((histogramOf HistId.h_Uni []).binOf (1 / 2) = Int.floor ((1 : ℚ) / 2 * 100) ∧
      0 ≤ Int.floor ((1 : ℚ) / 2 * 100) ∧ Int.floor ((1 : ℚ) / 2 * 100) ≤ 99 ∧
      ((histogramOf HistId.h_Uni []).fill (1 / 2)).underflow =
        (histogramOf HistId.h_Uni []).underflow ∧
      ((histogramOf HistId.h_Uni []).fill (1 / 2)).overflow =
        (histogramOf HistId.h_Uni []).overflow ∧
      ((histogramOf HistId.h_Uni []).fill (1 / 2)).total =
        (histogramOf HistId.h_Uni []).total + 1) ∧
    (main halfEnv).map (fun p => (histogramOf HistId.h_Uni p.2.trace).total) = some 10000 ∧
    (main halfEnv).map (fun p => (histogramOf HistId.h_Uni p.2.trace).underflow) = some 0 ∧
    (main halfEnv).map (fun p => (histogramOf HistId.h_Uni p.2.trace).overflow) = some 0) :=
  ⟨⟨fun _ _ => by norm_num [halfEnv], by norm_num, by norm_num⟩,
   h_Uni_total halfEnv (fun _ _ => by norm_num [halfEnv]) [] (1 / 2) (by norm_num)
     (by norm_num)⟩

theorem fillAll_append (h : Histogram) (us vs : List ℚ) :
    h.fillAll (us ++ vs) = (h.fillAll us).fillAll vs := by
  simp [Histogram.fillAll, List.foldl_append]

theorem histogramOf_append (h : HistId) (t u : List Event) :
    histogramOf h (t ++ u) = (histogramOf h t).fillAll (fillsOf h u) := by
  rw [histogramOf, fillsOf_append, fillAll_append]
  rfl

theorem fill_underflow (h : Histogram) (v : ℚ) :
    (h.fill v).underflow = h.underflow + (if v < h.lo then 1 else 0) := by
  unfold Histogram.fill
  by_cases hv : h.lo ≤ v ∧ v < h.hi
  · rw [if_pos hv, if_neg (not_lt.mpr hv.1)]; rfl
  · rw [if_neg hv]
    by_cases hlt : v < h.lo
    · rw [if_pos hlt, if_pos hlt]
    · rw [if_neg hlt, if_neg hlt]; rfl

theorem fill_overflow (h : Histogram) (v : ℚ) (hr : h.lo < h.hi) :
    (h.fill v).overflow = h.overflow + (if h.hi ≤ v then 1 else 0) := by
  unfold Histogram.fill
  by_cases hv : h.lo ≤ v ∧ v < h.hi
  · rw [if_pos hv, if_neg (not_le.mpr hv.2)]; rfl
  · rw [if_neg hv]
    by_cases hlt : v < h.lo
    · rw [if_pos hlt, if_neg (not_le.mpr (lt_trans hlt hr))]; rfl
    · have hge : h.hi ≤ v := not_lt.mp (fun hh => hv ⟨not_lt.mp hlt, hh⟩)
      rw [if_neg hlt, if_pos hge]

theorem fillAll_underflow (vs : List ℚ) (h : Histogram) (nb : Nat) (lo hi : ℚ)
    (hs : h.Shaped nb lo hi) :
    (h.fillAll vs).underflow =
      h.underflow + (vs.filter (fun x => decide (x < lo))).length := by
  induction vs generalizing h with
  | nil => simp [Histogram.fillAll]
  | cons v vs ih =>
    have e : h.fillAll (v :: vs) = (h.fill v).fillAll vs := rfl
    rw [e, ih (h.fill v) (fill_shaped h v nb lo hi hs), fill_underflow, hs.2.2.1]
    by_cases hv : v < lo
    · simp [hv, List.filter_cons]; omega
    · simp [hv, List.filter_cons]

theorem fillAll_overflow (vs : List ℚ) (h : Histogram) (nb : Nat) (lo hi : ℚ)
    (hs : h.Shaped nb lo hi) (hr : lo < hi) :
    (h.fillAll vs).overflow =
      h.overflow + (vs.filter (fun x => decide (hi ≤ x))).length := by
  induction vs generalizing h with
  | nil => simp [Histogram.fillAll]
  | cons v vs ih =>
    have e : h.fillAll (v :: vs) = (h.fill v).fillAll vs := rfl
    have hr' : h.lo < h.hi := by rw [hs.2.2.1, hs.2.2.2]; exact hr
    rw [e, ih (h.fill v) (fill_shaped h v nb lo hi hs), fill_overflow h v hr', hs.2.2.2]
    by_cases hv : hi ≤ v
    · simp [hv, List.filter_cons]; omega
    · simp [hv, List.filter_cons]

theorem cell_mem (n : List ℚ) (i : Nat) (hi : i < n.length) : cell n i ∈ n := by
  have e : cell n i = n[i] := by simp [cell, List.getElem?_eq_getElem, hi]
  rw [e]
  exact List.getElem_mem hi

theorem sum2Body_eq (i : Nat) (s : State) (hi : i + 1 < s.n.length) :
    sum2Body i s = some { s with trace := s.trace ++ sum2Events s.n i } := by
  have h0 : i < s.n.length := by omega
  simp [sum2Body, List.getElem?_eq_getElem, h0, hi, cell, sum2Events]

theorem fillsOf_h_1_sum2Events (n : List ℚ) (i : Nat) :
    fillsOf HistId.h_1 (sum2Events n i) = [cell n i + cell n (i + 1) - 1] := rfl

theorem length_filter_map_range (g : Nat → ℚ) (p : ℚ → Bool) (q : Nat → Bool) (k : Nat)
    (hpq : ∀ i, i < k → p (g i) = q i) :
    (((List.range k).map g).filter p).length = ((List.range k).filter q).length := by
  rw [List.filter_map, List.length_map]
  congr 1
  apply List.filter_congr
  intro i hi
  exact hpq i (List.mem_range.mp hi)

/-- C9: for a buffer `n` of length `N` whose values all lie in `[0, 1)`, each
iteration `i` of the sum-of-2 loop (lines 43-46) fills the centred sum
`x1 = n[i] + n[i+1] - 1`, which lies in `[-1, 1)`, into `h_1` (booked over
`[0, 1)`); the fill raises the total of the bin counts of `h_1` by one if and
only if `n[i] + n[i+1] >= 1`, and when `n[i] + n[i+1] < 1` (a negative `x1`) it
leaves every bin unchanged and the value is dropped below the range.  Over
the whole loop, the bin total of `h_1` grows by the number of indices with
`n[i] + n[i+1] >= 1`, its underflow count by the number of indices with
`n[i] + n[i+1] < 1`, and its overflow count not at all. -/
theorem sum2Loop_h_1_counts (N : Nat) (s : State) (hN : s.n.length = N)
    (hbuf : ∀ v ∈ s.n, 0 ≤ v ∧ v < 1) :
    (∀ i, i + 1 < N →
      -1 ≤ x1 (cell s.n i) (cell s.n (i + 1)) ∧ x1 (cell s.n i) (cell s.n (i + 1)) < 1 ∧
      ∃ s1, sum2Body i s = some s1 ∧
        fillsOf HistId.h_1 s1.trace =
          fillsOf HistId.h_1 s.trace ++ [cell s.n i + cell s.n (i + 1) - 1] ∧
        ((histogramOf HistId.h_1 s1.trace).total = (histogramOf HistId.h_1 s.trace).total + 1
          ↔ 1 ≤ cell s.n i + cell s.n (i + 1)) ∧
        (cell s.n i + cell s.n (i + 1) < 1 →
          (histogramOf HistId.h_1 s1.trace).bins = (histogramOf HistId.h_1 s.trace).bins ∧
          (histogramOf HistId.h_1 s1.trace).underflow =
            (histogramOf HistId.h_1 s.trace).underflow + 1)) ∧
    (∃ s2, sum2Loop N s = some s2 ∧
      fillsOf HistId.h_1 s2.trace =
        fillsOf HistId.h_1 s.trace ++
          (List.range (N - 1)).map (fun i => cell s.n i + cell s.n (i + 1) - 1) ∧
      (histogramOf HistId.h_1 s2.trace).total =
        (histogramOf HistId.h_1 s.trace).total +
          ((List.range (N - 1)).filter
            (fun i => decide (1 ≤ cell s.n i + cell s.n (i + 1)))).length ∧
      (histogramOf HistId.h_1 s2.trace).underflow =
        (histogramOf HistId.h_1 s.trace).underflow +
          ((List.range (N - 1)).filter
            (fun i => decide (cell s.n i + cell s.n (i + 1) < 1))).length ∧
      (histogramOf HistId.h_1 s2.trace).overflow =
        (histogramOf HistId.h_1 s.trace).overflow) := by
  have hcell : ∀ i, i < N → 0 ≤ cell s.n i ∧ cell s.n i < 1 :=
    fun i hi => hbuf _ (cell_mem s.n i (hN ▸ hi))
  have hsh := histogramOf_shaped_h_1 s.trace
  constructor
  · intro i hi
    obtain ⟨ha0, ha1⟩ := hcell i (by omega)
    obtain ⟨hb0, hb1⟩ := hcell (i + 1) hi
    obtain ⟨hx0, hx1, hiff, hneg⟩ :=
      x1_fill_h_1 (cell s.n i) (cell s.n (i + 1)) ha0 ha1 hb0 hb1 s.trace
    have hh : histogramOf HistId.h_1 (s.trace ++ sum2Events s.n i) =
        (histogramOf HistId.h_1 s.trace).fill (x1 (cell s.n i) (cell s.n (i + 1))) := by
      rw [histogramOf_append, fillsOf_h_1_sum2Events]; rfl
    refine ⟨hx0, hx1, _, sum2Body_eq i s (hN ▸ hi), ?_, ?_, fun hlt => ?_⟩
    · show fillsOf HistId.h_1 (s.trace ++ sum2Events s.n i) = _
      rw [fillsOf_append, fillsOf_h_1_sum2Events]
    · show (histogramOf HistId.h_1 (s.trace ++ sum2Events s.n i)).total = _ ↔ _
      rw [hh]; exact hiff
    · show (histogramOf HistId.h_1 (s.trace ++ sum2Events s.n i)).bins = _ ∧
        (histogramOf HistId.h_1 (s.trace ++ sum2Events s.n i)).underflow = _
      rw [hh]
      exact hneg (by show cell s.n i + cell s.n (i + 1) - 1 < 0; linarith)
  · have hh : histogramOf HistId.h_1 (s.trace ++ gather (sum2Events s.n) (N - 1)) =
        (histogramOf HistId.h_1 s.trace).fillAll
          ((List.range (N - 1)).map (fun i => cell s.n i + cell s.n (i + 1) - 1)) := by
      rw [histogramOf_append, fillsOf_h_1_sum2]
    have hpair : ∀ i, i < N - 1 →
        (0 ≤ cell s.n i ∧ cell s.n i < 1) ∧ (0 ≤ cell s.n (i + 1) ∧ cell s.n (i + 1) < 1) :=
      fun i hi => ⟨hcell i (by omega), hcell (i + 1) (by omega)⟩
    refine ⟨_, sum2Loop_eq N s hN, ?_, ?_, ?_, ?_⟩
    · show fillsOf HistId.h_1 (s.trace ++ gather (sum2Events s.n) (N - 1)) = _
      rw [fillsOf_append, fillsOf_h_1_sum2]
    · show (histogramOf HistId.h_1 (s.trace ++ gather (sum2Events s.n) (N - 1))).total = _
      rw [hh, fillAll_total _ _ 100 0 1 hsh (by decide) (by norm_num)]
      congr 1
      apply length_filter_map_range
      intro i hi
      obtain ⟨⟨ha0, ha1⟩, hb0, hb1⟩ := hpair i hi
      apply decide_eq_decide.mpr
      constructor
      · intro hh1; linarith [hh1.1]
      · intro hh1; exact ⟨by linarith, by linarith⟩
    · show (histogramOf HistId.h_1 (s.trace ++ gather (sum2Events s.n) (N - 1))).underflow = _
      rw [hh, fillAll_underflow _ _ 100 0 1 hsh]
      congr 1
      apply length_filter_map_range
      intro i hi
      apply decide_eq_decide.mpr
      constructor
      · intro hh1; linarith
      · intro hh1; linarith
    · show (histogramOf HistId.h_1 (s.trace ++ gather (sum2Events s.n) (N - 1))).overflow = _
      rw [hh, fillAll_overflow _ _ 100 0 1 hsh (by norm_num)]
      have hnone : (((List.range (N - 1)).map
          (fun i => cell s.n i + cell s.n (i + 1) - 1)).filter
            (fun x => decide ((1 : ℚ) ≤ x))).length = ((List.range (N - 1)).filter
              (fun _ => false)).length := by
        apply length_filter_map_range
        intro i hi
        obtain ⟨⟨ha0, ha1⟩, hb0, hb1⟩ := hpair i hi
        exact decide_eq_false (by intro hh1; linarith)
      rw [hnone]
      simp

theorem sum2Loop_h_1_counts_witness :
    (mixedState.n.length = 3 ∧ ∀ v ∈ mixedState.n, (0 : ℚ) ≤ v ∧ v < 1) ∧
    ((∀ i, i + 1 < 3 →
      -1 ≤ x1 (cell mixedState.n i) (cell mixedState.n (i + 1)) ∧
      x1 (cell mixedState.n i) (cell mixedState.n (i + 1)) < 1 ∧
      ∃ s1, sum2Body i mixedState = some s1 ∧
        fillsOf HistId.h_1 s1.trace =
          fillsOf HistId.h_1 mixedState.trace ++
            [cell mixedState.n i + cell mixedState.n (i + 1) - 1] ∧
        ((histogramOf HistId.h_1 s1.trace).total =
            (histogramOf HistId.h_1 mixedState.trace).total + 1
          ↔ 1 ≤ cell mixedState.n i + cell mixedState.n (i + 1)) ∧
        (cell mixedState.n i + cell mixedState.n (i + 1) < 1 →
          (histogramOf HistId.h_1 s1.trace).bins =
            (histogramOf HistId.h_1 mixedState.trace).bins ∧
          (histogramOf HistId.h_1 s1.trace).underflow =
            (histogramOf HistId.h_1 mixedState.trace).underflow + 1)) ∧
    (∃ s2, sum2Loop 3 mixedState = some s2 ∧
      fillsOf HistId.h_1 s2.trace =
        fillsOf HistId.h_1 mixedState.trace ++
          (List.range (3 - 1)).map
            (fun i => cell mixedState.n i + cell mixedState.n (i + 1) - 1) ∧
      (histogramOf HistId.h_1 s2.trace).total =
        (histogramOf HistId.h_1 mixedState.trace).total +
          ((List.range (3 - 1)).filter
            (fun i => decide (1 ≤ cell mixedState.n i + cell mixedState.n (i + 1)))).length ∧
      (histogramOf HistId.h_1 s2.trace).underflow =
        (histogramOf HistId.h_1 mixedState.trace).underflow +
          ((List.range (3 - 1)).filter
            (fun i => decide (cell mixedState.n i + cell mixedState.n (i + 1) < 1))).length ∧
      (histogramOf HistId.h_1 s2.trace).overflow =
        (histogramOf HistId.h_1 mixedState.trace).overflow)) :=
  ⟨⟨rfl, by simp [mixedState]; norm_num⟩,
   sum2Loop_h_1_counts 3 mixedState rfl (by simp [mixedState]; norm_num)⟩

end SimpleMC
